import Mathlib

/-!
Shallow embedding of the event/inventory consistency engine of the mock
marketplace backend (EventService.ts, InventoryService.ts, validation.ts,
models/Inventory.ts, models/Event.ts), together with theorems settling the
specification claims about it.

Conventions of the embedding:
* the SQLite tables are lists of rows; a `UPDATE ... WHERE` statement is a
  `List.map` guarded by the WHERE predicate, and its `changes` count is the
  number of rows matching the predicate;
* timestamps (`new Date().toISOString()`) are `Nat` parameters threaded into
  each operation (ISO-8601 strings compare lexicographically, which agrees
  with chronological order, so `Nat` comparison is faithful);
* `uuidv4()` results are `String` parameters threaded into each operation;
  uuid freshness becomes an explicit hypothesis where a proof needs it;
* a thrown `Error` is the `Except.error` case of the returned value; the
  database state is whatever it was when the throw happened.
-/

namespace Marketplace

/-! ## Inventory ledger data model (src/models/Inventory.ts) -/

/-- One row of the `inventory` table, as selected by `getInventoryItem`.
`available` is not a column: the SELECT computes `(stock - reserved) as
available`, so here it is the derived function `Inventory.available`. -/
structure Inventory where
  teamId : String
  sku : String
  stock : Int
  reserved : Int
  version : Nat
  updatedAt : Nat
deriving Repr, DecidableEq

/-- Derived column `(i.stock - i.reserved) as available` of the SELECT in
`getInventoryItem` / `getInventory`. -/
def Inventory.available (r : Inventory) : Int :=
  r.stock - r.reserved

/-- Actor recorded in the `by` column of `inventory_events`. -/
inductive Actor where
  | staff
  | system
  | customerBot
deriving Repr, DecidableEq

/-- Audit row type of `inventory_events.type`. -/
inductive AuditType where
  | restocked
  | reserved
  | released
  | adjusted
deriving Repr, DecidableEq

/-- One row of the `inventory_events` audit table (`InventoryEvent` in
models/Inventory.ts). -/
structure InventoryEvent where
  id : String
  teamId : String
  sku : String
  type : AuditType
  quantity : Int
  previousStock : Int
  newStock : Int
  actor : Actor
  createdAt : Nat
deriving Repr, DecidableEq

/-- `RestockDTO` of models/Inventory.ts. -/
structure RestockDTO where
  teamId : String
  sku : String
  quantity : Int
  actor : Actor
deriving Repr, DecidableEq

/-- `ReserveDTO` of models/Inventory.ts. -/
structure ReserveDTO where
  teamId : String
  sku : String
  quantity : Int
  orderId : String
deriving Repr, DecidableEq

/-- The persistent state owned by InventoryService: the `inventory` table and
the append-only `inventory_events` audit table. -/
structure LedgerState where
  inventory : List Inventory
  audit : List InventoryEvent
deriving Repr, DecidableEq

/-- Errors thrown by InventoryService methods. -/
inductive LedgerError where
  | notFound
  | concurrentModification
  | invalidState
deriving Repr, DecidableEq

/-! ## Inventory ledger operations (src/services/InventoryService.ts) -/

/-- Row predicate of the WHERE clause `team_id = ? AND sku = ?`. -/
def invKey (t s : String) (r : Inventory) : Bool :=
  r.teamId == t && r.sku == s

/-- `getInventoryItem(teamId, sku)`: the SELECT returning the single row of
the (team, sku) pair, or null. -/
def getInventoryItem (rows : List Inventory) (t s : String) : Option Inventory :=
  rows.find? (invKey t s)

/-- Result of running one SQL UPDATE: the new table and the number of rows
the WHERE clause matched (`result.changes` in better-sqlite3). -/
structure UpdateResult where
  rows : List Inventory
  changes : Nat
deriving Repr, DecidableEq

/-- The version-guarded UPDATE shared by restock/reserve/release/adjust:
`UPDATE inventory SET ... , version = version + 1, updated_at = ?
WHERE team_id = ? AND sku = ? AND version = ?`.
`f` is the SET clause (it must bump `version` itself, mirroring the SQL). -/
def runGuardedUpdate (rows : List Inventory) (t s : String) (expected : Nat)
    (f : Inventory → Inventory) : UpdateResult :=
  { rows := rows.map fun r => if invKey t s r && r.version == expected then f r else r
    changes := rows.countP fun r => invKey t s r && r.version == expected }

/-- Appends one row to `inventory_events` (`logInventoryEvent`). -/
def logInventoryEvent (st : LedgerState) (e : InventoryEvent) : LedgerState :=
  { st with audit := st.audit ++ [e] }

/-- Write phase of `restock`, starting from the snapshot row the operation
read (`current`). Everything after the `await this.getInventoryItem` of the
source is here, so an interleaved writer is modelled by running the write
phase against a state that changed after the snapshot was taken. -/
def restockWrite (st : LedgerState) (dto : RestockDTO) (current : Inventory)
    (auditId : String) (now : Nat) : Except LedgerError LedgerState :=
  let newStock := current.stock + dto.quantity
  let res := runGuardedUpdate st.inventory dto.teamId dto.sku current.version
    fun r => { r with stock := newStock, version := r.version + 1, updatedAt := now }
  if res.changes == 0 then
    .error .concurrentModification
  else
    .ok (logInventoryEvent { st with inventory := res.rows }
      { id := auditId, teamId := dto.teamId, sku := dto.sku, type := .restocked
        quantity := dto.quantity, previousStock := current.stock, newStock := newStock
        actor := dto.actor, createdAt := now })

/-- `restock(dto)`: read the current row, then run the write phase. -/
def restock (st : LedgerState) (dto : RestockDTO) (auditId : String) (now : Nat) :
    Except LedgerError LedgerState :=
  match getInventoryItem st.inventory dto.teamId dto.sku with
  | none => .error .notFound
  | some current => restockWrite st dto current auditId now

/-- Write phase of `reserve`, starting from the snapshot row `current`. -/
def reserveWrite (st : LedgerState) (dto : ReserveDTO) (current : Inventory)
    (auditId : String) (now : Nat) : Except LedgerError (LedgerState × Bool) :=
  if current.available < dto.quantity then
    .ok (st, false)
  else
    let newReserved := current.reserved + dto.quantity
    let res := runGuardedUpdate st.inventory dto.teamId dto.sku current.version
      fun r => { r with reserved := newReserved, version := r.version + 1, updatedAt := now }
    if res.changes == 0 then
      .error .concurrentModification
    else
      .ok (logInventoryEvent { st with inventory := res.rows }
        { id := auditId, teamId := dto.teamId, sku := dto.sku, type := .reserved
          quantity := dto.quantity, previousStock := current.stock, newStock := current.stock
          actor := .system, createdAt := now }, true)

/-- `reserve(dto) -> boolean`. -/
def reserve (st : LedgerState) (dto : ReserveDTO) (auditId : String) (now : Nat) :
    Except LedgerError (LedgerState × Bool) :=
  match getInventoryItem st.inventory dto.teamId dto.sku with
  | none => .error .notFound
  | some current => reserveWrite st dto current auditId now

/-- Write phase of `release`, starting from the snapshot row `current`. -/
def releaseWrite (st : LedgerState) (t s : String) (quantity : Int) (current : Inventory)
    (now : Nat) : Except LedgerError (LedgerState × Bool) :=
  let newStock := current.stock - quantity
  let newReserved := current.reserved - quantity
  if newStock < 0 || newReserved < 0 then
    .error .invalidState
  else
    let res := runGuardedUpdate st.inventory t s current.version
      fun r => { r with
                 stock := newStock
                 reserved := newReserved
                 version := r.version + 1
                 updatedAt := now }
    if res.changes == 0 then
      .error .concurrentModification
    else
      .ok ({ st with inventory := res.rows }, true)

/-- `release(teamId, sku, quantity, orderId) -> boolean`; a missing row
returns `false` (not an error), and no audit entry is written. -/
def release (st : LedgerState) (t s : String) (quantity : Int) (orderId : String)
    (now : Nat) : Except LedgerError (LedgerState × Bool) :=
  match getInventoryItem st.inventory t s with
  | none => .ok (st, false)
  | some current => releaseWrite st t s quantity current now

/-- Write phase of `adjust`, starting from the snapshot row `current`. -/
def adjustWrite (st : LedgerState) (t s : String) (delta : Int) (current : Inventory)
    (auditId : String) (now : Nat) : Except LedgerError LedgerState :=
  let newStock := current.stock + delta
  if newStock < 0 then
    .error .invalidState
  else
    let res := runGuardedUpdate st.inventory t s current.version
      fun r => { r with stock := newStock, version := r.version + 1, updatedAt := now }
    if res.changes == 0 then
      .error .concurrentModification
    else
      .ok (logInventoryEvent { st with inventory := res.rows }
        { id := auditId, teamId := t, sku := s, type := .adjusted
          quantity := delta, previousStock := current.stock, newStock := newStock
          actor := .staff, createdAt := now })

/-- `adjust(teamId, sku, quantity, reason, by='staff')`; `reason` only lands
in the audit row, which records actor `staff`. -/
def adjust (st : LedgerState) (t s : String) (delta : Int) (reason : String)
    (auditId : String) (now : Nat) : Except LedgerError LedgerState :=
  match getInventoryItem st.inventory t s with
  | none => .error .notFound
  | some current => adjustWrite st t s delta current auditId now

/-! ## Event log data model (src/models/Event.ts) -/

/-- The closed `EventType` union. -/
inductive EventType where
  | orderCreated
  | orderPaid
  | orderCancelled
  | orderRefundRequested
  | orderDisputeOpened
  | inventoryRestocked
  | inventoryShortageDetected
  | inventoryManualAdjusted
  | eventDuplicateSent
  | eventDelayed
  | eventOutOfOrder
deriving Repr, DecidableEq

/-- JSON-like values: the `payload` of an event is an uninterpreted structured
document (`unknown` in the source, a JSON value once stored). -/
inductive Json where
  | null
  | bool (b : Bool)
  | num (n : Int)
  | str (s : String)
  | arr (items : List Json)
  | obj (fields : List (String × Json))

/-- Property access `j.k` of JavaScript: a field of an object, `undefined`
(here `none`) on anything else (including arrays, whose named properties are
absent here). -/
def Json.getField : Json → String → Option Json
  | .obj fields, k => (fields.find? fun f => f.1 == k).map (·.2)
  | _, _ => none

/-- `typeof x === 'object' && x !== null` of JavaScript (arrays are objects). -/
def Json.isObjectLike : Json → Bool
  | .obj _ => true
  | .arr _ => true
  | _ => false

/-- `typeof x === 'string'` on an optional property (`undefined` fails). -/
def isStringProp : Option Json → Bool
  | some (.str _) => true
  | _ => false

/-- `typeof x === 'number'` on an optional property (`undefined` fails). -/
def isNumberProp : Option Json → Bool
  | some (.num _) => true
  | _ => false

/-- `EventMetadata` of models/Event.ts. -/
structure EventMetadata where
  correlationId : Option String := none
  causationId : Option String := none
  replayOf : Option String := none
  delayedUntil : Option Nat := none
  outOfOrder : Option String := none
deriving Repr, DecidableEq

/-- One row of the `events` table, as mapped back by `mapRowToEvent`. -/
structure Event where
  id : String
  teamId : String
  type : EventType
  payload : Json
  createdAt : Nat
  processedAt : Option Nat := none
  metadata : Option EventMetadata := none

/-- `CreateEventDTO` of models/Event.ts. Note: it has no `id` field — a
caller of `createEvent` has no way to supply an event id. -/
structure CreateEventDTO where
  teamId : String
  type : EventType
  payload : Json
  metadata : Option EventMetadata := none

/-- `EventFilters` of models/Event.ts. -/
structure EventFilters where
  type : Option EventType := none
  since : Option Nat := none
  limit : Option Nat := none

/-- Error thrown by `replayEvent` / `sendDuplicateEvent` on a missing id. -/
inductive EventError where
  | notFound
deriving Repr, DecidableEq

/-! ## Payload validation (src/utils/validation.ts) -/

/-- `validateOrderPayload` of validation.ts. -/
def validateOrderPayload (payload : Json) : Bool :=
  payload.isObjectLike &&
  isStringProp (payload.getField "orderId") &&
  (match payload.getField "items" with
   | some (.arr items) =>
     items.all fun item =>
       isStringProp (item.getField "sku") && isNumberProp (item.getField "qty")
   | _ => false)

/-- `validateOrderCancellationPayload` of validation.ts. -/
def validateOrderCancellationPayload (payload : Json) : Bool :=
  payload.isObjectLike && isStringProp (payload.getField "orderId")

/-- `validateInventoryPayload` of validation.ts. -/
def validateInventoryPayload (payload : Json) : Bool :=
  payload.isObjectLike &&
  isStringProp (payload.getField "sku") &&
  isNumberProp (payload.getField "quantity")

/-- `validateEventPayload` of validation.ts. Known order/inventory types go
through the shape validators; the remaining (unmatched) types are allowed.
This function is defined in the repository but has no caller: neither
`EventService.createEvent` nor any route invokes it. -/
def validateEventPayload (type : EventType) (payload : Json) : Bool :=
  match type with
  | .orderCreated | .orderPaid => validateOrderPayload payload
  | .orderCancelled | .orderRefundRequested | .orderDisputeOpened =>
    validateOrderCancellationPayload payload
  | .inventoryRestocked | .inventoryManualAdjusted => validateInventoryPayload payload
  | _ => true

/-! ## Event log operations (src/services/EventService.ts) -/

/-- `getEventById(eventId)`: SELECT by primary key. -/
def getEventById (store : List Event) (eventId : String) : Option Event :=
  store.find? fun e => e.id == eventId

/-- `createEvent(dto)`. The source generates `eventId = uuidv4()` itself
(threaded here as the `eventId` parameter), looks that freshly generated id
up as its "idempotency check", and inserts when the lookup misses. It
returns the stored row and never fails. -/
def createEvent (store : List Event) (dto : CreateEventDTO) (eventId : String)
    (now : Nat) : List Event × Event :=
  match getEventById store eventId with
  | some existing => (store, existing)
  | none =>
    let e : Event :=
      { id := eventId, teamId := dto.teamId, type := dto.type, payload := dto.payload
        createdAt := now, processedAt := none, metadata := dto.metadata }
    (store ++ [e], e)

/-- Predicate of the WHERE clause built by `getEvents`: team match, optional
type equality, optional strict `created_at > since`. -/
def matchesFilters (teamId : String) (filters : EventFilters) (e : Event) : Bool :=
  e.teamId == teamId &&
  (match filters.type with
   | some t => e.type == t
   | none => true) &&
  (match filters.since with
   | some s => decide (s < e.createdAt)
   | none => true)

/-- Insertion step of the `ORDER BY created_at DESC` model. -/
def insertByCreatedAtDesc (e : Event) : List Event → List Event
  | [] => [e]
  | x :: xs =>
    if x.createdAt ≤ e.createdAt then e :: x :: xs else x :: insertByCreatedAtDesc e xs

/-- `ORDER BY created_at DESC` modelled as an insertion sort (SQLite fixes no
tie order, so any createdAt-descending arrangement is a faithful model). -/
def sortByCreatedAtDesc (es : List Event) : List Event :=
  es.foldr insertByCreatedAtDesc []

/-- `getEvents(teamId, filters)`: filter, sort descending by `created_at`,
and apply `LIMIT` only when `filters.limit` is set — the query string gains
no LIMIT clause otherwise. -/
def getEvents (store : List Event) (teamId : String) (filters : EventFilters) :
    List Event :=
  let sorted := sortByCreatedAtDesc (store.filter (matchesFilters teamId filters))
  match filters.limit with
  | some n => sorted.take n
  | none => sorted

/-- `replayEvent(eventId, delayUntil?)`: look the source event up, fail with
NotFound when missing, otherwise create a fresh event with the same
teamId/type/payload and metadata referencing the source. -/
def replayEvent (store : List Event) (eventId : String) (delayUntil : Option Nat)
    (freshId : String) (now : Nat) : Except EventError (List Event × Event) :=
  match getEventById store eventId with
  | none => .error .notFound
  | some original =>
    .ok (createEvent store
      { teamId := original.teamId, type := original.type, payload := original.payload
        metadata := some { replayOf := some eventId, delayedUntil := delayUntil } }
      freshId now)

/-- `markAsProcessed(eventId)`: `UPDATE events SET processed_at = ? WHERE
id = ?`, unconditionally — no check that the row exists and no check that
`processed_at` is still NULL. The method returns void and throws nothing. -/
def markAsProcessed (store : List Event) (eventId : String) (now : Nat) : List Event :=
  store.map fun e => if e.id == eventId then { e with processedAt := some now } else e

/-! ## Well-formedness and helper lemmas for the ledger -/

/-- The PRIMARY KEY (team_id, sku) of the `inventory` table: no two rows
share a key. -/
def WFInv (rows : List Inventory) : Prop :=
  rows.Pairwise fun a b => ¬(a.teamId = b.teamId ∧ a.sku = b.sku)

instance (rows : List Inventory) : Decidable (WFInv rows) := by
  unfold WFInv
  infer_instance

theorem invKey_eq_true {t s : String} {r : Inventory} :
    invKey t s r = true ↔ r.teamId = t ∧ r.sku = s := by
  simp [invKey]

theorem getInventoryItem_found {rows : List Inventory} {t s : String} {cur : Inventory}
    (h : getInventoryItem rows t s = some cur) :
    cur ∈ rows ∧ cur.teamId = t ∧ cur.sku = s := by
  refine ⟨List.mem_of_find?_eq_some h, ?_⟩
  have := List.find?_some h
  exact invKey_eq_true.mp this

/-- In a well-formed table, any row matching the key of the found row is the
found row itself. -/
theorem key_match_eq_found {rows : List Inventory} {t s : String} {cur r : Inventory}
    (hwf : WFInv rows) (hfind : getInventoryItem rows t s = some cur)
    (hr : r ∈ rows) (hk : invKey t s r = true) : r = cur := by
  induction rows with
  | nil => cases hr
  | cons a l ih =>
    rw [WFInv, List.pairwise_cons] at hwf
    unfold getInventoryItem at hfind
    rw [List.find?_cons] at hfind
    rcases List.mem_cons.mp hr with hra | hrl
    · subst hra
      rw [hk] at hfind
      exact Option.some_injective _ hfind
    · by_cases ha : invKey t s a
      · exfalso
        rw [ha] at hfind
        obtain ⟨hat, has⟩ := invKey_eq_true.mp ha
        obtain ⟨hrt, hrs⟩ := invKey_eq_true.mp hk
        exact hwf.1 r hrl ⟨hat.trans hrt.symm, has.trans hrs.symm⟩
      · rw [Bool.not_eq_true] at ha
        rw [ha] at hfind
        exact ih hwf.2 hfind hrl

/-- With the snapshot equal to the current row, the guarded UPDATE hits
exactly the key-matching row. -/
theorem runGuardedUpdate_fresh {rows : List Inventory} {t s : String} {cur : Inventory}
    (hwf : WFInv rows) (hfind : getInventoryItem rows t s = some cur)
    (f : Inventory → Inventory) :
    (runGuardedUpdate rows t s cur.version f).rows
      = rows.map (fun r => if invKey t s r then f r else r)
    ∧ (runGuardedUpdate rows t s cur.version f).changes ≠ 0 := by
  constructor
  · apply List.map_congr_left
    intro r hr
    by_cases hk : invKey t s r
    · have := key_match_eq_found hwf hfind hr hk
      subst this
      simp [hk]
    · rw [Bool.not_eq_true] at hk
      simp [hk]
  · have hm := getInventoryItem_found hfind
    have hk : invKey t s cur = true := invKey_eq_true.mpr hm.2
    have : 0 < (runGuardedUpdate rows t s cur.version f).changes := by
      apply List.countP_pos_iff.mpr
      exact ⟨cur, hm.1, by simp [hk]⟩
    omega

/-- A guarded UPDATE whose expected version no longer matches the current
row's version changes nothing: zero rows affected, table unchanged. -/
theorem runGuardedUpdate_stale {rows : List Inventory} {t s : String} {cur : Inventory}
    (hwf : WFInv rows) (hfind : getInventoryItem rows t s = some cur)
    {expected : Nat} (hne : expected ≠ cur.version) (f : Inventory → Inventory) :
    runGuardedUpdate rows t s expected f = ⟨rows, 0⟩ := by
  have hnomatch : ∀ r ∈ rows, (invKey t s r && r.version == expected) = false := by
    intro r hr
    by_cases hk : invKey t s r
    · have := key_match_eq_found hwf hfind hr hk
      subst this
      simp [Ne.symm hne]
    · rw [Bool.not_eq_true] at hk
      simp [hk]
  have h1 : (rows.map fun r => if invKey t s r && r.version == expected then f r else r)
      = rows := by
    have := List.map_congr_left (l := rows)
      (f := fun r => if invKey t s r && r.version == expected then f r else r) (g := id)
      (by intro a ha; simp only [hnomatch a ha]; simp)
    rw [this, List.map_id]
  have h2 : (rows.countP fun r => invKey t s r && r.version == expected) = 0 :=
    List.countP_eq_zero.mpr (by intro a ha; simp [hnomatch a ha])
  unfold runGuardedUpdate
  rw [h1, h2]

/-- Looking a key up after a key-preserving rewrite of the table finds the
rewritten row. -/
theorem getInventoryItem_map {t s : String} (g : Inventory → Inventory)
    (hg : ∀ r, invKey t s (g r) = invKey t s r) (rows : List Inventory) :
    getInventoryItem (rows.map g) t s = (getInventoryItem rows t s).map g := by
  induction rows with
  | nil => rfl
  | cons a l ih =>
    unfold getInventoryItem at *
    rw [List.map_cons, List.find?_cons, List.find?_cons, hg a]
    by_cases hk : invKey t s a
    · rw [hk]; rfl
    · rw [Bool.not_eq_true] at hk
      rw [hk]
      exact ih

/-- A key-preserving rewrite of the table preserves well-formedness. -/
theorem WFInv_map {rows : List Inventory} (g : Inventory → Inventory)
    (hg : ∀ r, (g r).teamId = r.teamId ∧ (g r).sku = r.sku) (hwf : WFInv rows) :
    WFInv (rows.map g) := by
  refine hwf.map g ?_
  intro a b hab hgab
  exact hab ⟨((hg a).1).symm.trans (hgab.1.trans (hg b).1),
    ((hg a).2).symm.trans (hgab.2.trans (hg b).2)⟩

/-- Explicit success value of the write phase of `restock` when the snapshot
is still current. -/
theorem restockWrite_ok {st : LedgerState} {dto : RestockDTO} {cur : Inventory}
    (hwf : WFInv st.inventory)
    (hfind : getInventoryItem st.inventory dto.teamId dto.sku = some cur)
    (auditId : String) (now : Nat) :
    restockWrite st dto cur auditId now = .ok
      { inventory := st.inventory.map fun r =>
          if invKey dto.teamId dto.sku r then
            { r with stock := cur.stock + dto.quantity, version := r.version + 1
                     updatedAt := now }
          else r
        audit := st.audit ++ [⟨auditId, dto.teamId, dto.sku, .restocked, dto.quantity,
          cur.stock, cur.stock + dto.quantity, dto.actor, now⟩] } := by
  obtain ⟨hrows, hch⟩ := runGuardedUpdate_fresh hwf hfind
    (f := fun r => { r with stock := cur.stock + dto.quantity, version := r.version + 1
                            updatedAt := now })
  unfold restockWrite
  rw [if_neg (by simpa using hch)]
  unfold logInventoryEvent
  rw [hrows]

/-- Explicit success value of the write phase of `reserve` when stock is
sufficient and the snapshot is still current. -/
theorem reserveWrite_ok {st : LedgerState} {dto : ReserveDTO} {cur : Inventory}
    (hwf : WFInv st.inventory)
    (hfind : getInventoryItem st.inventory dto.teamId dto.sku = some cur)
    (hsuff : dto.quantity ≤ cur.available)
    (auditId : String) (now : Nat) :
    reserveWrite st dto cur auditId now = .ok
      ({ inventory := st.inventory.map fun r =>
           if invKey dto.teamId dto.sku r then
             { r with reserved := cur.reserved + dto.quantity, version := r.version + 1
                      updatedAt := now }
           else r
         audit := st.audit ++ [⟨auditId, dto.teamId, dto.sku, .reserved, dto.quantity,
           cur.stock, cur.stock, .system, now⟩] }, true) := by
  obtain ⟨hrows, hch⟩ := runGuardedUpdate_fresh hwf hfind
    (f := fun r => { r with reserved := cur.reserved + dto.quantity, version := r.version + 1
                            updatedAt := now })
  unfold reserveWrite
  rw [if_neg (not_lt.mpr hsuff), if_neg (by simpa using hch)]
  unfold logInventoryEvent
  rw [hrows]

/-- Explicit success value of the write phase of `release` when neither
counter would go negative and the snapshot is still current. -/
theorem releaseWrite_ok {st : LedgerState} {t s : String} {q : Int} {cur : Inventory}
    (hwf : WFInv st.inventory)
    (hfind : getInventoryItem st.inventory t s = some cur)
    (hstock : 0 ≤ cur.stock - q) (hres : 0 ≤ cur.reserved - q) (now : Nat) :
    releaseWrite st t s q cur now = .ok
      ({ st with inventory := st.inventory.map fun r =>
           if invKey t s r then
             { r with stock := cur.stock - q, reserved := cur.reserved - q
                      version := r.version + 1, updatedAt := now }
           else r }, true) := by
  obtain ⟨hrows, hch⟩ := runGuardedUpdate_fresh hwf hfind
    (f := fun r => { r with stock := cur.stock - q, reserved := cur.reserved - q
                            version := r.version + 1, updatedAt := now })
  unfold releaseWrite
  rw [if_neg (by simp [not_lt.mpr hstock, not_lt.mpr hres]), if_neg (by simpa using hch)]
  rw [hrows]

/-- Explicit success value of the write phase of `adjust` when the adjusted
stock stays non-negative and the snapshot is still current. -/
theorem adjustWrite_ok {st : LedgerState} {t s : String} {d : Int} {cur : Inventory}
    (hwf : WFInv st.inventory)
    (hfind : getInventoryItem st.inventory t s = some cur)
    (hstock : 0 ≤ cur.stock + d) (auditId : String) (now : Nat) :
    adjustWrite st t s d cur auditId now = .ok
      { inventory := st.inventory.map fun r =>
          if invKey t s r then
            { r with stock := cur.stock + d, version := r.version + 1, updatedAt := now }
          else r
        audit := st.audit ++ [⟨auditId, t, s, .adjusted, d, cur.stock, cur.stock + d,
          .staff, now⟩] } := by
  obtain ⟨hrows, hch⟩ := runGuardedUpdate_fresh hwf hfind
    (f := fun r => { r with stock := cur.stock + d, version := r.version + 1
                            updatedAt := now })
  unfold adjustWrite
  rw [if_neg (not_lt.mpr hstock), if_neg (by simpa using hch)]
  unfold logInventoryEvent
  rw [hrows]

/-! ## Call sequences against one (teamId, sku) and the ledger invariant -/

/-- One ledger call of the spec's testable property: restock, reserve,
release or adjust against a fixed (teamId, sku). -/
inductive LedgerOp where
  | restockOp (quantity : Int) (actor : Actor)
  | reserveOp (quantity : Int) (orderId : String)
  | releaseOp (quantity : Int) (orderId : String)
  | adjustOp (delta : Int) (reason : String)
deriving Repr, DecidableEq

/-- Runs one call; a thrown error leaves the persisted state as it was. -/
def applyOp (st : LedgerState) (t s : String) (op : LedgerOp) (auditId : String)
    (now : Nat) : LedgerState :=
  match op with
  | .restockOp q b =>
    match restock st ⟨t, s, q, b⟩ auditId now with
    | .ok st' => st'
    | .error _ => st
  | .reserveOp q oid =>
    match reserve st ⟨t, s, q, oid⟩ auditId now with
    | .ok (st', _) => st'
    | .error _ => st
  | .releaseOp q oid =>
    match release st t s q oid now with
    | .ok (st', _) => st'
    | .error _ => st
  | .adjustOp d reason =>
    match adjust st t s d reason auditId now with
    | .ok st' => st'
    | .error _ => st

/-- Runs a sequence of calls (audit ids and timestamps do not influence the
stock/reserved/version counters, so a fixed id and clock are used). -/
def applyOps (st : LedgerState) (t s : String) (ops : List LedgerOp) : LedgerState :=
  ops.foldl (fun acc op => applyOp acc t s op "" 0) st

/-- Invariant of one inventory row claimed by the spec. -/
def rowInvariant (r : Inventory) : Prop :=
  0 ≤ r.stock ∧ 0 ≤ r.reserved ∧ r.reserved ≤ r.stock

instance (r : Inventory) : Decidable (rowInvariant r) := by
  unfold rowInvariant
  infer_instance

/-- Invariant of the whole table: primary key plus every row's invariant. -/
def stateInvariant (st : LedgerState) : Prop :=
  WFInv st.inventory ∧ ∀ r ∈ st.inventory, rowInvariant r

instance (st : LedgerState) : Decidable (stateInvariant st) := by
  unfold stateInvariant
  infer_instance

/-- Guard under which one call provably preserves the invariant: positive
quantities for restock and reserve (the code never checks their sign), and
for adjust a delta that keeps the stock at or above the reserved level (the
code only checks `newStock < 0`, not `newStock < reserved`). -/
def LedgerOp.safeFor : LedgerOp → LedgerState → String → String → Prop
  | .restockOp q _, _, _, _ => 0 < q
  | .reserveOp q _, _, _, _ => 0 < q
  | .releaseOp _ _, _, _, _ => True
  | .adjustOp d _, st, t, s =>
    ∀ r, getInventoryItem st.inventory t s = some r → r.reserved ≤ r.stock + d

/-- A sequence of calls each of which satisfies its guard in the state where
it actually runs. -/
inductive SafeOps (t s : String) : LedgerState → List LedgerOp → Prop where
  | nil (st : LedgerState) : SafeOps t s st []
  | cons (st : LedgerState) (op : LedgerOp) (ops : List LedgerOp)
      (hop : op.safeFor st t s)
      (hops : SafeOps t s (applyOp st t s op "" 0) ops) :
      SafeOps t s st (op :: ops)

/-- Rewriting only the key-matching row with a field update that keeps
teamId and sku preserves every row key. -/
theorem keyFix_ite {t s : String} (f : Inventory → Inventory)
    (hf : ∀ r, (f r).teamId = r.teamId ∧ (f r).sku = r.sku) (r : Inventory) :
    ((if invKey t s r then f r else r).teamId = r.teamId
      ∧ (if invKey t s r then f r else r).sku = r.sku) := by
  by_cases hk : invKey t s r
  · rw [if_pos hk]
    exact hf r
  · rw [if_neg hk]
    exact ⟨rfl, rfl⟩

/-- Row invariants survive a guarded rewrite whose effect on the current row
is itself invariant. -/
theorem rowInvariant_map_ite {rows : List Inventory} {t s : String} {cur : Inventory}
    (hwf : WFInv rows) (hfind : getInventoryItem rows t s = some cur)
    (f : Inventory → Inventory) (hcur : rowInvariant (f cur))
    (hrows : ∀ r ∈ rows, rowInvariant r) :
    ∀ r' ∈ rows.map (fun r => if invKey t s r then f r else r), rowInvariant r' := by
  intro r' hr'
  obtain ⟨r, hr, rfl⟩ := List.mem_map.mp hr'
  by_cases hk : invKey t s r
  · rw [if_pos hk, key_match_eq_found hwf hfind hr hk]
    exact hcur
  · rw [if_neg hk]
    exact hrows r hr

/-- One guarded call preserves the ledger invariant. -/
theorem applyOp_invariant {st : LedgerState} {t s : String} {op : LedgerOp}
    (hinv : stateInvariant st) (hsafe : op.safeFor st t s) (auditId : String)
    (now : Nat) : stateInvariant (applyOp st t s op auditId now) := by
  obtain ⟨hwf, hrows⟩ := hinv
  cases op with
  | restockOp q b =>
    cases hfind : getInventoryItem st.inventory t s with
    | none =>
      simp only [applyOp, restock, hfind]
      exact ⟨hwf, hrows⟩
    | some cur =>
      have hok := @restockWrite_ok st ⟨t, s, q, b⟩ cur hwf hfind auditId now
      simp only [applyOp, restock, hfind, hok]
      refine ⟨WFInv_map _ (keyFix_ite _ fun r => ⟨rfl, rfl⟩) hwf, ?_⟩
      refine rowInvariant_map_ite hwf hfind _ ?_ hrows
      obtain ⟨h1, h2, h3⟩ := hrows cur (getInventoryItem_found hfind).1
      have hq : (0 : Int) < q := hsafe
      refine ⟨?_, ?_, ?_⟩ <;> simp <;> omega
  | reserveOp q oid =>
    cases hfind : getInventoryItem st.inventory t s with
    | none =>
      simp only [applyOp, reserve, hfind]
      exact ⟨hwf, hrows⟩
    | some cur =>
      by_cases havail : cur.available < q
      · have hins : reserveWrite st ⟨t, s, q, oid⟩ cur auditId now = .ok (st, false) := by
          unfold reserveWrite
          rw [if_pos havail]
        simp only [applyOp, reserve, hfind, hins]
        exact ⟨hwf, hrows⟩
      · have hok := @reserveWrite_ok st ⟨t, s, q, oid⟩ cur hwf hfind
          (not_lt.mp havail) auditId now
        simp only [applyOp, reserve, hfind, hok]
        refine ⟨WFInv_map _ (keyFix_ite _ fun r => ⟨rfl, rfl⟩) hwf, ?_⟩
        refine rowInvariant_map_ite hwf hfind _ ?_ hrows
        obtain ⟨h1, h2, h3⟩ := hrows cur (getInventoryItem_found hfind).1
        have hq : (0 : Int) < q := hsafe
        have havail' : q ≤ cur.stock - cur.reserved := not_lt.mp havail
        refine ⟨?_, ?_, ?_⟩ <;> simp <;> omega
  | releaseOp q oid =>
    cases hfind : getInventoryItem st.inventory t s with
    | none =>
      simp only [applyOp, release, hfind]
      exact ⟨hwf, hrows⟩
    | some cur =>
      by_cases hneg : cur.stock - q < 0 ∨ cur.reserved - q < 0
      · have herr : releaseWrite st t s q cur now = .error .invalidState := by
          unfold releaseWrite
          rw [if_pos (by rcases hneg with h | h <;> simp [h])]
        simp only [applyOp, release, hfind, herr]
        exact ⟨hwf, hrows⟩
      · push_neg at hneg
        have hok := @releaseWrite_ok st t s q cur hwf hfind hneg.1 hneg.2 now
        simp only [applyOp, release, hfind, hok]
        refine ⟨WFInv_map _ (keyFix_ite _ fun r => ⟨rfl, rfl⟩) hwf, ?_⟩
        refine rowInvariant_map_ite hwf hfind _ ?_ hrows
        obtain ⟨h1, h2, h3⟩ := hrows cur (getInventoryItem_found hfind).1
        have hs := hneg.1
        have hr := hneg.2
        refine ⟨?_, ?_, ?_⟩ <;> simp <;> omega
  | adjustOp d reason =>
    cases hfind : getInventoryItem st.inventory t s with
    | none =>
      simp only [applyOp, adjust, hfind]
      exact ⟨hwf, hrows⟩
    | some cur =>
      have hadj : cur.reserved ≤ cur.stock + d := hsafe cur hfind
      obtain ⟨h1, h2, h3⟩ := hrows cur (getInventoryItem_found hfind).1
      have hok := @adjustWrite_ok st t s d cur hwf hfind
        (show (0 : Int) ≤ cur.stock + d by omega) auditId now
      simp only [applyOp, adjust, hfind, hok]
      refine ⟨WFInv_map _ (keyFix_ite _ fun r => ⟨rfl, rfl⟩) hwf, ?_⟩
      refine rowInvariant_map_ite hwf hfind _ ?_ hrows
      refine ⟨?_, ?_, ?_⟩ <;> simp <;> omega

/-- A guarded call sequence preserves the ledger invariant. -/
theorem applyOps_invariant {t s : String} {st : LedgerState} {ops : List LedgerOp}
    (hsafe : SafeOps t s st ops) (hinv : stateInvariant st) :
    stateInvariant (applyOps st t s ops) := by
  induction hsafe with
  | nil st => exact hinv
  | cons st op ops hop hops ih =>
    exact ih (applyOp_invariant hinv hop "" 0)

/-- An initial segment of a guarded call sequence is itself guarded. -/
theorem safeOps_append_left {t s : String} {st : LedgerState} {pre suf : List LedgerOp}
    (hsafe : SafeOps t s st (pre ++ suf)) : SafeOps t s st pre := by
  induction pre generalizing st with
  | nil => exact SafeOps.nil st
  | cons op ops ih =>
    cases hsafe with
    | cons _ _ _ hop hops => exact SafeOps.cons st op ops hop (ih hops)

/-! ## Helper lemmas for the event log -/

/-- Descending createdAt order (most recent first). -/
def DescByCreatedAt (es : List Event) : Prop :=
  es.Pairwise fun a b => b.createdAt ≤ a.createdAt

theorem mem_insertByCreatedAtDesc {e e' : Event} {l : List Event} :
    e' ∈ insertByCreatedAtDesc e l ↔ e' = e ∨ e' ∈ l := by
  induction l with
  | nil => simp [insertByCreatedAtDesc]
  | cons x xs ih =>
    unfold insertByCreatedAtDesc
    by_cases h : x.createdAt ≤ e.createdAt
    · rw [if_pos h]
      simp [or_comm, or_assoc, or_left_comm]
    · rw [if_neg h]
      simp only [List.mem_cons, ih]
      tauto

theorem length_insertByCreatedAtDesc (e : Event) (l : List Event) :
    (insertByCreatedAtDesc e l).length = l.length + 1 := by
  induction l with
  | nil => rfl
  | cons x xs ih =>
    unfold insertByCreatedAtDesc
    by_cases h : x.createdAt ≤ e.createdAt
    · rw [if_pos h]
      rfl
    · rw [if_neg h]
      simp [ih]

theorem desc_insertByCreatedAtDesc {e : Event} {l : List Event}
    (hl : DescByCreatedAt l) : DescByCreatedAt (insertByCreatedAtDesc e l) := by
  induction l with
  | nil => simp [insertByCreatedAtDesc, DescByCreatedAt]
  | cons x xs ih =>
    rw [DescByCreatedAt, List.pairwise_cons] at hl
    unfold insertByCreatedAtDesc
    by_cases h : x.createdAt ≤ e.createdAt
    · rw [if_pos h]
      rw [DescByCreatedAt, List.pairwise_cons]
      constructor
      · intro a ha
        rcases List.mem_cons.mp ha with rfl | hxs
        · exact h
        · exact le_trans (hl.1 a hxs) h
      · exact List.pairwise_cons.mpr hl
    · rw [if_neg h]
      rw [DescByCreatedAt, List.pairwise_cons]
      constructor
      · intro a ha
        rcases mem_insertByCreatedAtDesc.mp ha with rfl | hxs
        · exact le_of_lt (not_le.mp h)
        · exact hl.1 a hxs
      · exact ih hl.2

theorem mem_sortByCreatedAtDesc {e : Event} {l : List Event} :
    e ∈ sortByCreatedAtDesc l ↔ e ∈ l := by
  induction l with
  | nil => simp [sortByCreatedAtDesc]
  | cons x xs ih =>
    unfold sortByCreatedAtDesc at *
    rw [List.foldr_cons, mem_insertByCreatedAtDesc, ih, List.mem_cons]

theorem length_sortByCreatedAtDesc (l : List Event) :
    (sortByCreatedAtDesc l).length = l.length := by
  induction l with
  | nil => rfl
  | cons x xs ih =>
    unfold sortByCreatedAtDesc at *
    rw [List.foldr_cons, length_insertByCreatedAtDesc, ih, List.length_cons]

theorem desc_sortByCreatedAtDesc (l : List Event) :
    DescByCreatedAt (sortByCreatedAtDesc l) := by
  induction l with
  | nil => simp [sortByCreatedAtDesc, DescByCreatedAt]
  | cons x xs ih =>
    unfold sortByCreatedAtDesc at *
    rw [List.foldr_cons]
    exact desc_insertByCreatedAtDesc ih

theorem getEventById_append_self {store : List Event} {e : Event}
    (h : getEventById store e.id = none) :
    getEventById (store ++ [e]) e.id = some e := by
  unfold getEventById at *
  rw [List.find?_append, h]
  simp

theorem getEventById_mem {store : List Event} {eventId : String} {e : Event}
    (h : getEventById store eventId = some e) : e ∈ store ∧ e.id = eventId := by
  refine ⟨List.mem_of_find?_eq_some h, ?_⟩
  have := List.find?_some h
  simpa using this

/-- The key predicate only looks at teamId and sku. -/
theorem invKey_congr {t s : String} {a b : Inventory}
    (h1 : a.teamId = b.teamId) (h2 : a.sku = b.sku) : invKey t s a = invKey t s b := by
  unfold invKey
  rw [h1, h2]

/-- What a key lookup returns after a guarded rewrite of the table. -/
theorem lookup_after_guarded {st : LedgerState} {t s : String} {cur : Inventory}
    (hwf : WFInv st.inventory) (hfind : getInventoryItem st.inventory t s = some cur)
    (f : Inventory → Inventory)
    (hf : ∀ r, (f r).teamId = r.teamId ∧ (f r).sku = r.sku) :
    getInventoryItem (st.inventory.map fun r => if invKey t s r then f r else r) t s
      = some (f cur) := by
  have hg : ∀ r, invKey t s (if invKey t s r then f r else r) = invKey t s r := by
    intro r
    exact invKey_congr (keyFix_ite f hf r).1 (keyFix_ite f hf r).2
  rw [getInventoryItem_map _ hg, hfind]
  have hk : invKey t s cur = true := invKey_eq_true.mpr (getInventoryItem_found hfind).2
  simp [hk]

/-! ## Claim theorems -/

/-- C1 (code bug evaluation): `createEvent` is not idempotent for repeated
submissions. The DTO carries no id, the service generates a fresh uuid per
call and runs its duplicate check against that fresh uuid, so two calls with
the same (teamId, type, payload) store two rows under two different ids —
contradicting the documented at-most-once creation keyed by event id. -/
theorem C1_createEvent_not_idempotent :
    (createEvent ((createEvent []
        { teamId := "t1", type := .orderCreated
          payload := .obj [("orderId", .str "O1"), ("items", .arr [])] } "id-1" 0).1)
        { teamId := "t1", type := .orderCreated
          payload := .obj [("orderId", .str "O1"), ("items", .arr [])] } "id-2" 1).1.length = 2
    ∧ (createEvent []
        { teamId := "t1", type := .orderCreated
          payload := .obj [("orderId", .str "O1"), ("items", .arr [])] } "id-1" 0).2.id = "id-1"
    ∧ (createEvent ((createEvent []
        { teamId := "t1", type := .orderCreated
          payload := .obj [("orderId", .str "O1"), ("items", .arr [])] } "id-1" 0).1)
        { teamId := "t1", type := .orderCreated
          payload := .obj [("orderId", .str "O1"), ("items", .arr [])] } "id-2" 1).2.id = "id-2"
    ∧ "id-1" ≠ "id-2" := by
  refine ⟨rfl, rfl, rfl, by decide⟩

/-- C4 (code bug evaluation): `validateEventPayload` rejects an
`order.created` event with an empty-object payload, yet `createEvent` — which
never invokes the validator — stores exactly that event and returns it
without any error path. -/
theorem C4_invalid_payload_stored :
    validateEventPayload .orderCreated (.obj []) = false
    ∧ (createEvent [] { teamId := "t1", type := .orderCreated, payload := .obj [] }
        "id-1" 0).1
      = [{ id := "id-1", teamId := "t1", type := .orderCreated, payload := .obj []
           createdAt := 0, processedAt := none, metadata := none }] := by
  exact ⟨rfl, rfl⟩

/-- C6 (counterexample): a second `markAsProcessed` call overwrites the
stored `processedAt` (from 5 to 9) instead of being a no-op, and a call with
an id absent from the log silently changes nothing instead of failing with
NotFound (the method has no failure path at all). -/
theorem C6_counterexample :
    markAsProcessed [{ id := "e1", teamId := "t1", type := .orderCreated, payload := .null
                       createdAt := 0, processedAt := some 5, metadata := none }] "e1" 9
      = [{ id := "e1", teamId := "t1", type := .orderCreated, payload := .null
           createdAt := 0, processedAt := some 9, metadata := none }]
    ∧ (some 9 : Option Nat) ≠ some 5
    ∧ markAsProcessed [] "missing" 9 = [] := by
  refine ⟨rfl, by decide, rfl⟩

/-- C6 (amended): `markAsProcessed(id)` unconditionally stamps the current
time: the matching event's `processedAt` is set to `now` whether or not it
was already set (a repeat call overwrites the earlier value), every other
event is untouched, and an id that matches nothing leaves the store exactly
as it was with no NotFound error. -/
theorem C6_markAsProcessed_unconditional (store : List Event) (eventId : String)
    (now : Nat) (e : Event) (h : getEventById store eventId = some e) :
    getEventById (markAsProcessed store eventId now) eventId
      = some { e with processedAt := some now }
    ∧ (∀ e' ∈ store, e'.id ≠ eventId → e' ∈ markAsProcessed store eventId now)
    ∧ (∀ st : List Event, getEventById st eventId = none →
        markAsProcessed st eventId now = st) := by
  refine ⟨?_, ?_, ?_⟩
  · unfold markAsProcessed getEventById at *
    have hg : ∀ x : Event,
        ((if x.id == eventId then { x with processedAt := some now } else x).id == eventId)
          = (x.id == eventId) := by
      intro x
      by_cases hx : x.id == eventId
      · rw [if_pos hx]
      · rw [if_neg hx]
    rw [List.find?_map]
    have hcomp : ((fun x : Event => x.id == eventId) ∘
        fun x : Event => if x.id == eventId then { x with processedAt := some now } else x)
          = fun x : Event => x.id == eventId := by
      funext x
      exact hg x
    rw [hcomp, h]
    have he := List.find?_some h
    show some (if (e.id == eventId) = true then { e with processedAt := some now } else e)
      = some { e with processedAt := some now }
    rw [if_pos he]
  · intro e' he' hne
    unfold markAsProcessed
    have : (if e'.id == eventId then { e' with processedAt := some now } else e') = e' := by
      rw [if_neg (by simpa using hne)]
    exact this ▸ List.mem_map_of_mem _ he'
  · intro st hnone
    unfold markAsProcessed
    have hids : ∀ x ∈ st, (x.id == eventId) = false := by
      intro x hx
      have := List.find?_eq_none.mp hnone x hx
      simpa using this
    have := List.map_congr_left (l := st)
      (f := fun x : Event => if x.id == eventId then { x with processedAt := some now } else x)
      (g := id) (by intro a ha; simp only [hids a ha]; simp)
    rw [this, List.map_id]

/-- C6 amended, instantiated: a log whose single event was already processed
at time 5 gets overwritten to 9. -/
theorem C6_markAsProcessed_unconditional_witness :
    getEventById [{ id := "e1", teamId := "t1", type := .orderCreated, payload := .null
                    createdAt := 0, processedAt := some 5, metadata := none }] "e1"
      = some { id := "e1", teamId := "t1", type := .orderCreated, payload := .null
               createdAt := 0, processedAt := some 5, metadata := none }
    ∧ getEventById (markAsProcessed
        [{ id := "e1", teamId := "t1", type := .orderCreated, payload := .null
           createdAt := 0, processedAt := some 5, metadata := none }] "e1" 9) "e1"
      = some { id := "e1", teamId := "t1", type := .orderCreated, payload := .null
               createdAt := 0, processedAt := some 9, metadata := none } := by
  exact ⟨rfl, (C6_markAsProcessed_unconditional
    [{ id := "e1", teamId := "t1", type := .orderCreated, payload := .null
       createdAt := 0, processedAt := some 5, metadata := none }] "e1" 9
    { id := "e1", teamId := "t1", type := .orderCreated, payload := .null
      createdAt := 0, processedAt := some 5, metadata := none } rfl).1⟩

/-- C8 (counterexample): `restock` with the non-positive quantity -5 is not
rejected: it succeeds, lowers the stock from 20 to 15, bumps the version and
records a `restocked` audit row — no validation error, record changed. -/
theorem C8_counterexample :
    restock ⟨[⟨"t1", "IT-001", 20, 0, 1, 0⟩], []⟩ ⟨"t1", "IT-001", -5, .staff⟩ "a1" 3
      = .ok ⟨[⟨"t1", "IT-001", 15, 0, 2, 3⟩],
             [⟨"a1", "t1", "IT-001", .restocked, -5, 20, 15, .staff, 3⟩]⟩ := by
  rfl

/-- C8 (amended): `restock` never validates the sign of `quantity`: for every
existing record and every quantity — positive, zero or negative — the call
succeeds and adds the quantity to the stock unchecked. -/
theorem C8_restock_unvalidated (st : LedgerState) (dto : RestockDTO) (cur : Inventory)
    (auditId : String) (now : Nat) (hwf : WFInv st.inventory)
    (hfind : getInventoryItem st.inventory dto.teamId dto.sku = some cur) :
    ∃ st', restock st dto auditId now = .ok st'
      ∧ getInventoryItem st'.inventory dto.teamId dto.sku
          = some { cur with stock := cur.stock + dto.quantity
                            version := cur.version + 1
                            updatedAt := now } := by
  have hok := restockWrite_ok hwf hfind auditId now
  refine ⟨⟨st.inventory.map fun r =>
      if invKey dto.teamId dto.sku r then
        { r with stock := cur.stock + dto.quantity, version := r.version + 1, updatedAt := now }
      else r,
    st.audit ++ [⟨auditId, dto.teamId, dto.sku, .restocked, dto.quantity, cur.stock,
      cur.stock + dto.quantity, dto.actor, now⟩]⟩, ?_, ?_⟩
  · simp only [restock, hfind, hok]
  · exact lookup_after_guarded hwf hfind _ (fun r => ⟨rfl, rfl⟩)

/-- C8 amended, instantiated at quantity -5. -/
theorem C8_restock_unvalidated_witness :
    WFInv [⟨"t1", "IT-001", 20, 0, 1, 0⟩]
    ∧ ∃ st', restock ⟨[⟨"t1", "IT-001", 20, 0, 1, 0⟩], []⟩ ⟨"t1", "IT-001", -5, .staff⟩
        "a1" 3 = .ok st'
      ∧ getInventoryItem st'.inventory "t1" "IT-001"
          = some ⟨"t1", "IT-001", 15, 0, 2, 3⟩ := by
  refine ⟨by decide, ?_⟩
  exact C8_restock_unvalidated ⟨[⟨"t1", "IT-001", 20, 0, 1, 0⟩], []⟩
    ⟨"t1", "IT-001", -5, .staff⟩ ⟨"t1", "IT-001", 20, 0, 1, 0⟩ "a1" 3 (by decide) rfl

/-- C2 (counterexample): starting from an initialized record (stock 20,
reserved 0), the call sequence reserve 15; adjust -10 ends with
stock 10 < reserved 15 — `adjust` only checks `newStock < 0`, not
`newStock < reserved` — and the single call restock -25 drives the stock to
-5, because `restock` never validates the sign of its quantity. -/
theorem C2_counterexample :
    getInventoryItem (applyOps ⟨[⟨"t1", "IT-001", 20, 0, 1, 0⟩], []⟩ "t1" "IT-001"
        [.reserveOp 15 "O1", .adjustOp (-10) "fix"]).inventory "t1" "IT-001"
      = some ⟨"t1", "IT-001", 10, 15, 3, 0⟩
    ∧ ¬ rowInvariant ⟨"t1", "IT-001", 10, 15, 3, 0⟩
    ∧ getInventoryItem (applyOps ⟨[⟨"t1", "IT-001", 20, 0, 1, 0⟩], []⟩ "t1" "IT-001"
        [.restockOp (-25) .staff]).inventory "t1" "IT-001"
      = some ⟨"t1", "IT-001", -5, 0, 2, 0⟩
    ∧ ¬ rowInvariant ⟨"t1", "IT-001", -5, 0, 2, 0⟩ := by
  refine ⟨rfl, by decide, rfl, by decide⟩

/-- C2 (amended): for every sequence of restock/reserve/release/adjust calls
against one (teamId, sku) in which every restock and reserve quantity is
positive and every adjust keeps the stock at or above the reserved level, the
record satisfies stock ≥ 0 and 0 ≤ reserved ≤ stock after every call of the
sequence; `available` is always the recomputed difference stock - reserved,
never independently stored. -/
theorem C2_ledger_invariant (t s : String) (st : LedgerState) (ops : List LedgerOp)
    (hinv : stateInvariant st) (hsafe : SafeOps t s st ops) :
    (∀ pre suf : List LedgerOp, ops = pre ++ suf →
      stateInvariant (applyOps st t s pre))
    ∧ ∀ r : Inventory, r.available = r.stock - r.reserved := by
  constructor
  · intro pre suf hps
    subst hps
    exact applyOps_invariant (safeOps_append_left hsafe) hinv
  · intro r
    rfl

/-- C2 amended, instantiated: initialized record with stock 20, then
reserve 10; restock 5; release 3 — the invariant holds after every initial segment. -/
theorem C2_ledger_invariant_witness :
    stateInvariant ⟨[⟨"t1", "IT-001", 20, 0, 1, 0⟩], []⟩
    ∧ ∀ pre suf : List LedgerOp,
        [LedgerOp.reserveOp 10 "O1", .restockOp 5 .staff, .releaseOp 3 "O1"] = pre ++ suf →
        stateInvariant (applyOps ⟨[⟨"t1", "IT-001", 20, 0, 1, 0⟩], []⟩ "t1" "IT-001" pre) := by
  have hinv : stateInvariant ⟨[⟨"t1", "IT-001", 20, 0, 1, 0⟩], []⟩ := by decide
  have hsafe : SafeOps "t1" "IT-001" ⟨[⟨"t1", "IT-001", 20, 0, 1, 0⟩], []⟩
      [LedgerOp.reserveOp 10 "O1", .restockOp 5 .staff, .releaseOp 3 "O1"] := by
    refine SafeOps.cons _ _ _ ?_ (SafeOps.cons _ _ _ ?_ (SafeOps.cons _ _ _ ?_ (SafeOps.nil _)))
    · exact (by decide : (0 : Int) < 10)
    · exact (by decide : (0 : Int) < 5)
    · exact trivial
  exact ⟨hinv, (C2_ledger_invariant "t1" "IT-001" _ _ hinv hsafe).1⟩

/-- C5: on an existing record, `reserve` with available < quantity returns
`false` with no error and the entire state (so in particular stock, reserved
and version of the record) unchanged; with available ≥ quantity it returns
`true`, increments exactly `reserved` by the quantity under the version
guard, and appends a `reserved` audit entry. -/
theorem C5_reserve_semantics (st : LedgerState) (dto : ReserveDTO) (cur : Inventory)
    (auditId : String) (now : Nat) (hwf : WFInv st.inventory)
    (hfind : getInventoryItem st.inventory dto.teamId dto.sku = some cur) :
    (cur.available < dto.quantity → reserve st dto auditId now = .ok (st, false))
    ∧ (dto.quantity ≤ cur.available →
        ∃ st', reserve st dto auditId now = .ok (st', true)
          ∧ getInventoryItem st'.inventory dto.teamId dto.sku
              = some { cur with reserved := cur.reserved + dto.quantity
                                version := cur.version + 1
                                updatedAt := now }
          ∧ st'.audit = st.audit ++ [⟨auditId, dto.teamId, dto.sku, .reserved,
              dto.quantity, cur.stock, cur.stock, .system, now⟩]) := by
  constructor
  · intro hlt
    have : reserveWrite st dto cur auditId now = .ok (st, false) := by
      unfold reserveWrite
      rw [if_pos hlt]
    simp only [reserve, hfind, this]
  · intro hge
    have hok := reserveWrite_ok hwf hfind hge auditId now
    refine ⟨⟨st.inventory.map fun r =>
        if invKey dto.teamId dto.sku r then
          { r with reserved := cur.reserved + dto.quantity, version := r.version + 1
                   updatedAt := now }
        else r,
      st.audit ++ [⟨auditId, dto.teamId, dto.sku, .reserved, dto.quantity, cur.stock,
        cur.stock, .system, now⟩]⟩, ?_, ?_, rfl⟩
    · simp only [reserve, hfind, hok]
    · exact lookup_after_guarded hwf hfind _ (fun r => ⟨rfl, rfl⟩)

/-- C5, instantiated: stock 25, reserved 0 — reserving 30 returns false and
changes nothing; reserving 10 returns true, sets reserved to 10 and logs the
audit entry. -/
theorem C5_reserve_semantics_witness :
    ((25 : Int) - 0 < 30
      → reserve ⟨[⟨"t1", "IT-001", 25, 0, 2, 0⟩], []⟩ ⟨"t1", "IT-001", 30, "X"⟩ "a1" 4
          = .ok (⟨[⟨"t1", "IT-001", 25, 0, 2, 0⟩], []⟩, false))
    ∧ ((10 : Int) ≤ 25 - 0
      → ∃ st', reserve ⟨[⟨"t1", "IT-001", 25, 0, 2, 0⟩], []⟩ ⟨"t1", "IT-001", 10, "X"⟩
            "a1" 4 = .ok (st', true)
          ∧ getInventoryItem st'.inventory "t1" "IT-001"
              = some ⟨"t1", "IT-001", 25, 10, 3, 4⟩
          ∧ st'.audit = [] ++ [⟨"a1", "t1", "IT-001", .reserved, 10, 25, 25, .system, 4⟩]) := by
  constructor
  · exact (C5_reserve_semantics ⟨[⟨"t1", "IT-001", 25, 0, 2, 0⟩], []⟩
      ⟨"t1", "IT-001", 30, "X"⟩ ⟨"t1", "IT-001", 25, 0, 2, 0⟩ "a1" 4 (by decide) rfl).1
  · exact (C5_reserve_semantics ⟨[⟨"t1", "IT-001", 25, 0, 2, 0⟩], []⟩
      ⟨"t1", "IT-001", 10, "X"⟩ ⟨"t1", "IT-001", 25, 0, 2, 0⟩ "a1" 4 (by decide) rfl).2

/-- C10: each successful mutation rewrites only its own row and only its own
counter — `reserve` leaves every field but reserved/version/updatedAt of the
(teamId, sku) row unchanged (stock untouched), `restock` and `adjust` leave
every field but stock/version/updatedAt unchanged (reserved untouched), and
every row with a different (teamId, sku) key is mapped to itself. -/
theorem C10_frame_effects (st : LedgerState) (t s : String) (cur : Inventory)
    (auditId : String) (now : Nat) (hwf : WFInv st.inventory)
    (hfind : getInventoryItem st.inventory t s = some cur) :
    (∀ q oid st', reserve st ⟨t, s, q, oid⟩ auditId now = .ok (st', true) →
      st'.inventory = st.inventory.map fun r =>
        if invKey t s r then
          { r with reserved := cur.reserved + q, version := r.version + 1, updatedAt := now }
        else r)
    ∧ (∀ q b st', restock st ⟨t, s, q, b⟩ auditId now = .ok st' →
        st'.inventory = st.inventory.map fun r =>
          if invKey t s r then
            { r with stock := cur.stock + q, version := r.version + 1, updatedAt := now }
          else r)
    ∧ (∀ d reason st', adjust st t s d reason auditId now = .ok st' →
        st'.inventory = st.inventory.map fun r =>
          if invKey t s r then
            { r with stock := cur.stock + d, version := r.version + 1, updatedAt := now }
          else r) := by
  refine ⟨?_, ?_, ?_⟩
  · intro q oid st' h
    by_cases havail : cur.available < q
    · have hins : reserveWrite st ⟨t, s, q, oid⟩ cur auditId now = .ok (st, false) := by
        unfold reserveWrite
        rw [if_pos havail]
      simp only [reserve, hfind, hins] at h
      cases h
    · have hok := @reserveWrite_ok st ⟨t, s, q, oid⟩ cur hwf hfind (not_lt.mp havail)
        auditId now
      simp only [reserve, hfind, hok] at h
      cases h
      rfl
  · intro q b st' h
    have hok := @restockWrite_ok st ⟨t, s, q, b⟩ cur hwf hfind auditId now
    simp only [restock, hfind, hok] at h
    cases h
    rfl
  · intro d reason st' h
    by_cases hneg : cur.stock + d < 0
    · have herr : adjustWrite st t s d cur auditId now = .error .invalidState := by
        unfold adjustWrite
        rw [if_pos hneg]
      simp only [adjust, hfind, herr] at h
      cases h
    · have hok := adjustWrite_ok hwf hfind (not_lt.mp hneg) auditId now
      simp only [adjust, hfind, hok] at h
      cases h
      rfl

/-- C10, instantiated: a two-row table where only the (t1, IT-001) row is
touched by a successful reserve — the t2 row is mapped to itself and the t1
row keeps its stock. -/
theorem C10_frame_effects_witness :
    WFInv [⟨"t1", "IT-001", 20, 0, 1, 0⟩, ⟨"t2", "IT-001", 7, 1, 4, 0⟩]
    ∧ ∀ st', reserve ⟨[⟨"t1", "IT-001", 20, 0, 1, 0⟩, ⟨"t2", "IT-001", 7, 1, 4, 0⟩], []⟩
          ⟨"t1", "IT-001", 5, "X"⟩ "a1" 9 = .ok (st', true) →
        st'.inventory
          = [⟨"t1", "IT-001", 20, 0, 1, 0⟩, ⟨"t2", "IT-001", 7, 1, 4, 0⟩].map fun r =>
              if invKey "t1" "IT-001" r then
                { r with reserved := 0 + 5, version := r.version + 1, updatedAt := 9 }
              else r := by
  refine ⟨by decide, ?_⟩
  intro st' h
  exact (C10_frame_effects ⟨[⟨"t1", "IT-001", 20, 0, 1, 0⟩, ⟨"t2", "IT-001", 7, 1, 4, 0⟩], []⟩
    "t1" "IT-001" ⟨"t1", "IT-001", 20, 0, 1, 0⟩ "a1" 9 (by decide) rfl).1 5 "X" st' h

/-- C3: on an existing record, (1) every successful restock / reserve /
release / adjust leaves the record at version exactly one above the version
it read; (2) a write phase whose snapshot version no longer matches the
current row is rejected with ConcurrentModification, and the underlying
guarded UPDATE matches zero rows and leaves the table unchanged; (3) two
write phases that both read the same version never both succeed — after the
first one lands, the second is rejected (restock) or cannot return a
successful reservation (reserve). -/
theorem C3_version_guard (st : LedgerState) (t s : String) (cur : Inventory)
    (auditId auditId' : String) (now now' : Nat) (hwf : WFInv st.inventory)
    (hfind : getInventoryItem st.inventory t s = some cur) :
    (∀ q b st', restock st ⟨t, s, q, b⟩ auditId now = .ok st' →
      ∃ r', getInventoryItem st'.inventory t s = some r' ∧ r'.version = cur.version + 1)
    ∧ (∀ q oid st', reserve st ⟨t, s, q, oid⟩ auditId now = .ok (st', true) →
        ∃ r', getInventoryItem st'.inventory t s = some r' ∧ r'.version = cur.version + 1)
    ∧ (∀ q oid st', release st t s q oid now = .ok (st', true) →
        ∃ r', getInventoryItem st'.inventory t s = some r' ∧ r'.version = cur.version + 1)
    ∧ (∀ d reason st', adjust st t s d reason auditId now = .ok st' →
        ∃ r', getInventoryItem st'.inventory t s = some r' ∧ r'.version = cur.version + 1)
    ∧ (∀ snap : Inventory, ∀ q b, snap.version ≠ cur.version →
        restockWrite st ⟨t, s, q, b⟩ snap auditId now = .error .concurrentModification)
    ∧ (∀ f : Inventory → Inventory, ∀ expected : Nat, expected ≠ cur.version →
        runGuardedUpdate st.inventory t s expected f = ⟨st.inventory, 0⟩)
    ∧ (∀ q b q' b' st₁, restockWrite st ⟨t, s, q, b⟩ cur auditId now = .ok st₁ →
        restockWrite st₁ ⟨t, s, q', b'⟩ cur auditId' now' = .error .concurrentModification)
    ∧ (∀ q b q' oid st₁, restockWrite st ⟨t, s, q, b⟩ cur auditId now = .ok st₁ →
        ¬ ∃ st₂, reserveWrite st₁ ⟨t, s, q', oid⟩ cur auditId' now' = .ok (st₂, true)) := by
  refine ⟨?_, ?_, ?_, ?_, ?_, ?_, ?_, ?_⟩
  · intro q b st' h
    have hok := @restockWrite_ok st ⟨t, s, q, b⟩ cur hwf hfind auditId now
    simp only [restock, hfind, hok] at h
    cases h
    exact ⟨_, lookup_after_guarded hwf hfind _ (fun r => ⟨rfl, rfl⟩), rfl⟩
  · intro q oid st' h
    by_cases havail : cur.available < q
    · have hins : reserveWrite st ⟨t, s, q, oid⟩ cur auditId now = .ok (st, false) := by
        unfold reserveWrite
        rw [if_pos havail]
      simp only [reserve, hfind, hins] at h
      cases h
    · have hok := @reserveWrite_ok st ⟨t, s, q, oid⟩ cur hwf hfind (not_lt.mp havail)
        auditId now
      simp only [reserve, hfind, hok] at h
      cases h
      exact ⟨_, lookup_after_guarded hwf hfind _ (fun r => ⟨rfl, rfl⟩), rfl⟩
  · intro q oid st' h
    by_cases hneg : cur.stock - q < 0 ∨ cur.reserved - q < 0
    · have herr : releaseWrite st t s q cur now = .error .invalidState := by
        unfold releaseWrite
        rw [if_pos (by rcases hneg with hx | hx <;> simp [hx])]
      simp only [release, hfind, herr] at h
      cases h
    · push_neg at hneg
      have hok := releaseWrite_ok hwf hfind hneg.1 hneg.2 now
      simp only [release, hfind, hok] at h
      cases h
      exact ⟨_, lookup_after_guarded hwf hfind _ (fun r => ⟨rfl, rfl⟩), rfl⟩
  · intro d reason st' h
    by_cases hneg : cur.stock + d < 0
    · have herr : adjustWrite st t s d cur auditId now = .error .invalidState := by
        unfold adjustWrite
        rw [if_pos hneg]
      simp only [adjust, hfind, herr] at h
      cases h
    · have hok := adjustWrite_ok hwf hfind (not_lt.mp hneg) auditId now
      simp only [adjust, hfind, hok] at h
      cases h
      exact ⟨_, lookup_after_guarded hwf hfind _ (fun r => ⟨rfl, rfl⟩), rfl⟩
  · intro snap q b hne
    have hstale := runGuardedUpdate_stale hwf hfind hne
      (f := fun r => { r with stock := snap.stock + q, version := r.version + 1
                              updatedAt := now })
    simp only [restockWrite, hstale]
    rfl
  · intro f expected hne
    exact runGuardedUpdate_stale hwf hfind hne f
  · intro q b q' b' st₁ h
    have hok : restockWrite st ⟨t, s, q, b⟩ cur auditId now = .ok
        { inventory := st.inventory.map fun r =>
            if invKey t s r then
              { r with stock := cur.stock + q, version := r.version + 1, updatedAt := now }
            else r
          audit := st.audit ++
            [⟨auditId, t, s, .restocked, q, cur.stock, cur.stock + q, b, now⟩] } :=
      restockWrite_ok hwf hfind auditId now
    rw [hok] at h
    cases h
    have hwf₁ := WFInv_map
      (fun r => if invKey t s r then
        { r with stock := cur.stock + q, version := r.version + 1, updatedAt := now }
       else r)
      (keyFix_ite _ fun r => ⟨rfl, rfl⟩) hwf
    have hfind₁ := lookup_after_guarded hwf hfind
      (f := fun r => { r with stock := cur.stock + q, version := r.version + 1
                              updatedAt := now })
      (fun r => ⟨rfl, rfl⟩)
    have hne : cur.version ≠ cur.version + 1 := by omega
    have hstale := runGuardedUpdate_stale hwf₁ hfind₁ hne
      (f := fun r => { r with stock := cur.stock + q', version := r.version + 1
                              updatedAt := now' })
    simp only [restockWrite, hstale]
    rfl
  · intro q b q' oid st₁ h
    have hok : restockWrite st ⟨t, s, q, b⟩ cur auditId now = .ok
        { inventory := st.inventory.map fun r =>
            if invKey t s r then
              { r with stock := cur.stock + q, version := r.version + 1, updatedAt := now }
            else r
          audit := st.audit ++
            [⟨auditId, t, s, .restocked, q, cur.stock, cur.stock + q, b, now⟩] } :=
      restockWrite_ok hwf hfind auditId now
    rw [hok] at h
    cases h
    rintro ⟨st₂, h₂⟩
    have hwf₁ := WFInv_map
      (fun r => if invKey t s r then
        { r with stock := cur.stock + q, version := r.version + 1, updatedAt := now }
       else r)
      (keyFix_ite _ fun r => ⟨rfl, rfl⟩) hwf
    have hfind₁ := lookup_after_guarded hwf hfind
      (f := fun r => { r with stock := cur.stock + q, version := r.version + 1
                              updatedAt := now })
      (fun r => ⟨rfl, rfl⟩)
    have hne : cur.version ≠ cur.version + 1 := by omega
    by_cases havail : cur.available < q'
    · simp only [reserveWrite, if_pos havail] at h₂
      cases h₂
    · have hstale := runGuardedUpdate_stale hwf₁ hfind₁ hne
        (f := fun r => { r with reserved := cur.reserved + q', version := r.version + 1
                                updatedAt := now' })
      simp only [reserveWrite, if_neg havail, hstale] at h₂
      cases h₂

/-- C3, instantiated: a successful restock of 5 on a version-1 record leaves
the record at version 2. -/
theorem C3_version_guard_witness :
    WFInv [⟨"t1", "IT-001", 20, 0, 1, 0⟩]
    ∧ ∃ r', getInventoryItem (LedgerState.inventory
        ⟨[⟨"t1", "IT-001", 25, 0, 2, 7⟩],
         [⟨"a1", "t1", "IT-001", .restocked, 5, 20, 25, .staff, 7⟩]⟩) "t1" "IT-001"
          = some r'
      ∧ r'.version = 1 + 1 := by
  refine ⟨by decide, ?_⟩
  exact (C3_version_guard ⟨[⟨"t1", "IT-001", 20, 0, 1, 0⟩], []⟩ "t1" "IT-001"
      ⟨"t1", "IT-001", 20, 0, 1, 0⟩ "a1" "a2" 7 8 (by decide) rfl).1 5 .staff
    ⟨[⟨"t1", "IT-001", 25, 0, 2, 7⟩],
     [⟨"a1", "t1", "IT-001", .restocked, 5, 20, 25, .staff, 7⟩]⟩ rfl

/-- C7: replaying an existing event creates and returns one new event whose
id is the freshly generated uuid (different from the source id), whose
teamId, type and payload equal the original's, and whose metadata carries
`replayOf = eventId` and `delayedUntil = delayUntil`; the store gains exactly
that event. Replaying a missing id fails with NotFound and the error path
stores nothing. -/
theorem C7_replay (store : List Event) (eventId freshId : String) (delay : Option Nat)
    (now : Nat) :
    (∀ orig, getEventById store eventId = some orig →
      getEventById store freshId = none →
      ∃ e, replayEvent store eventId delay freshId now = .ok (store ++ [e], e)
        ∧ e.id = freshId ∧ e.id ≠ eventId ∧ e.teamId = orig.teamId ∧ e.type = orig.type
        ∧ e.payload = orig.payload ∧ e.processedAt = none
        ∧ e.metadata = some { replayOf := some eventId, delayedUntil := delay })
    ∧ (getEventById store eventId = none →
        replayEvent store eventId delay freshId now = .error .notFound) := by
  constructor
  · intro orig ho hf
    have hne : freshId ≠ eventId := by
      intro he
      rw [he, ho] at hf
      cases hf
    refine ⟨{ id := freshId, teamId := orig.teamId, type := orig.type
              payload := orig.payload, createdAt := now, processedAt := none
              metadata := some { replayOf := some eventId, delayedUntil := delay } },
      ?_, rfl, hne, rfl, rfl, rfl, rfl, rfl⟩
    simp only [replayEvent, ho, createEvent, hf]
  · intro hnone
    simp only [replayEvent, hnone]

/-- C7, instantiated: replaying "e1" with fresh uuid "e2" and a delay of 50
appends the replay event; replaying "missing" on an empty store is
NotFound. -/
theorem C7_replay_witness :
    (∃ e, replayEvent
        [{ id := "e1", teamId := "t1", type := .orderPaid
           payload := .obj [("orderId", .str "O1"), ("items", .arr [])]
           createdAt := 3, processedAt := none, metadata := none }] "e1" (some 50) "e2" 9
        = .ok ([{ id := "e1", teamId := "t1", type := .orderPaid
                  payload := .obj [("orderId", .str "O1"), ("items", .arr [])]
                  createdAt := 3, processedAt := none, metadata := none }] ++ [e], e)
      ∧ e.id = "e2" ∧ e.id ≠ "e1" ∧ e.teamId = "t1" ∧ e.type = .orderPaid
      ∧ e.payload = .obj [("orderId", .str "O1"), ("items", .arr [])]
      ∧ e.processedAt = none
      ∧ e.metadata = some { replayOf := some "e1", delayedUntil := some 50 })
    ∧ replayEvent [] "missing" none "e9" 0 = .error .notFound := by
  constructor
  · exact (C7_replay
      [{ id := "e1", teamId := "t1", type := .orderPaid
         payload := .obj [("orderId", .str "O1"), ("items", .arr [])]
         createdAt := 3, processedAt := none, metadata := none }] "e1" "e2" (some 50) 9).1
      { id := "e1", teamId := "t1", type := .orderPaid
        payload := .obj [("orderId", .str "O1"), ("items", .arr [])]
        createdAt := 3, processedAt := none, metadata := none } rfl rfl
  · exact (C7_replay [] "missing" "e9" none 0).2 rfl

/-- C9 (code bug evaluation): when `filters.limit` is omitted, `getEvents`
appends no LIMIT clause at all, so no finite default bound on the result size
exists — for every candidate bound there is a store (one with bound + 1
matching events) whose unlimited query returns more than the bound. The
repository's own API documentation promises a default limit of 100. -/
theorem C9_no_default_limit :
    ¬ ∃ d : Nat, ∀ (store : List Event) (teamId : String),
      (getEvents store teamId {}).length ≤ d := by
  rintro ⟨d, hd⟩
  have h := hd ((List.range (d + 1)).map fun i =>
    { id := toString i, teamId := "t1", type := .eventDelayed, payload := .null
      createdAt := i, processedAt := none, metadata := none }) "t1"
  have hfil : ((List.range (d + 1)).map fun i =>
      { id := toString i, teamId := "t1", type := .eventDelayed, payload := .null
        createdAt := i, processedAt := none, metadata := none } : List Event).filter
        (matchesFilters "t1" {})
      = (List.range (d + 1)).map fun i =>
        { id := toString i, teamId := "t1", type := .eventDelayed, payload := .null
          createdAt := i, processedAt := none, metadata := none } := by
    apply List.filter_eq_self.mpr
    intro a ha
    obtain ⟨i, hi, rfl⟩ := List.mem_map.mp ha
    rfl
  simp only [getEvents, hfil] at h
  rw [length_sortByCreatedAtDesc, List.length_map, List.length_range] at h
  omega

end Marketplace
